import Mathlib

/-!
Verification of the 2D-packing framework (`framework.py`).

The Python entities are embedded as Lean structures.  Python object
references are modelled arena-style, following the design note of the
spec (§9): the box pool is a `List Box`, and a container's owned-box
collection is a `List Nat` of indices into that pool.  Machine
integers are Python's unbounded `int`, embedded as `Int`.
-/

/-- A box (`class Box`): intrinsic fields `id`, `x_length`, `y_length`,
`weight`, and the placement-derived fields set by `pack`/`unpack`. -/
structure Box where
  id : Int
  x_length : Int
  y_length : Int
  weight : Int
  packed : Bool
  container_id : Int
  x_min : Int
  x_delta : Int
  y_min : Int
  y_delta : Int
  is_horizontal : Bool
deriving DecidableEq, Repr

/-- Embeds `Box.__init__(id, x_length, y_length, weight)`: placement fields start
at their defaults (`packed=False`, `container_id=-1`, positions and deltas
`0`, `is_horizontal=True`). -/
def mkBox (id x_length y_length weight : Int) : Box :=
  { id := id, x_length := x_length, y_length := y_length, weight := weight,
    packed := false, container_id := -1,
    x_min := 0, x_delta := 0, y_min := 0, y_delta := 0, is_horizontal := true }

/-- Embeds `Box.pack(container_id, x_pos, y_pos, is_horizontal)`: records the
placement; the deltas are the intrinsic lengths, swapped when the box is
placed vertically.  No check of any kind is performed. -/
def Box.pack (b : Box) (container_id x_pos y_pos : Int) (is_horizontal : Bool) : Box :=
  { b with
    container_id := container_id,
    x_min := x_pos,
    y_min := y_pos,
    x_delta := if is_horizontal then b.x_length else b.y_length,
    y_delta := if is_horizontal then b.y_length else b.x_length,
    is_horizontal := is_horizontal,
    packed := true }

/-- Embeds `Box.unpack()`: resets every placement-derived field to its default. -/
def Box.unpack (b : Box) : Box :=
  { b with
    packed := false,
    container_id := -1,
    x_min := 0,
    x_delta := 0,
    y_min := 0,
    y_delta := 0,
    is_horizontal := true }

/-- A corner (`class Corner`): an `(x, y)` anchor position. -/
structure Corner where
  x : Int
  y : Int
deriving DecidableEq, Repr

/-- A container (`class Container`).  `boxes` holds pool indices standing
for the Python object references in `Container.boxes`. -/
structure Container where
  id : Int
  x_length : Int
  y_length : Int
  corners : List Corner
  boxes : List Nat
deriving DecidableEq, Repr

/-- Embeds `Container.__init__(id, x_length, y_length)`: one corner at `(0,0)`,
no owned boxes. -/
def mkContainer (id x_length y_length : Int) : Container :=
  { id := id, x_length := x_length, y_length := y_length,
    corners := [⟨0, 0⟩], boxes := [] }

/-- Default box used to read the pool (`Box()` has `id=-1` and zero
lengths/weight in the source). -/
def boxD : Box := mkBox (-1) 0 0 0

/-- Default container used to read the container list. -/
def contD : Container := mkContainer (-1) 0 0

/-- Embeds `class SolutionState`: the container list, the box pool, and the two
preference vectors (unused by `objective`). -/
structure SolutionState where
  containers : List Container
  boxes : List Box
  corner_preferences : List Int
  direction_preferences : List Bool
deriving DecidableEq, Repr

/-- Embeds `SolutionState.objective`: the flat sum
`sum(box.weight for container in self.containers for box in container.boxes)`.
It reads the state and returns an integer; it is a pure function. -/
def SolutionState.objective (s : SolutionState) : Int :=
  ((s.containers.flatMap fun c => c.boxes).map fun i => (s.boxes.getD i boxD).weight).sum

/-- The set of boxes a single `Box` object can reach through its public
lifecycle: construction, `pack`, `unpack`. -/
inductive BoxReach : Box → Prop
  | init (id x_length y_length weight : Int) :
      BoxReach (mkBox id x_length y_length weight)
  | packStep {b : Box} (container_id x_pos y_pos : Int) (is_horizontal : Bool) :
      BoxReach b → BoxReach (b.pack container_id x_pos y_pos is_horizontal)
  | unpackStep {b : Box} : BoxReach b → BoxReach b.unpack

/-- Every reachable unpacked box has all placement-derived fields at their
reset defaults.  Shared helper for the box-lifecycle results. -/
theorem boxReach_unpacked_fields {b : Box} (hr : BoxReach b)
    (hu : b.packed = false) :
    b.container_id = -1 ∧ b.x_min = 0 ∧ b.x_delta = 0 ∧ b.y_min = 0 ∧
      b.y_delta = 0 ∧ b.is_horizontal = true := by
  induction hr with
  | init id x_length y_length weight =>
      exact ⟨rfl, rfl, rfl, rfl, rfl, rfl⟩
  | packStep container_id x_pos y_pos is_horizontal hb ih =>
      simp [Box.pack] at hu
  | unpackStep hb ih =>
      exact ⟨rfl, rfl, rfl, rfl, rfl, rfl⟩

/-- An unpacked reachable box is left unchanged by `Box.unpack`. -/
theorem unpack_of_unpacked {b : Box} (hr : BoxReach b) (hu : b.packed = false) :
    b.unpack = b := by
  obtain ⟨h1, h2, h3, h4, h5, h6⟩ := boxReach_unpacked_fields hr hu
  cases b
  simp_all [Box.unpack]

/-- C3: `Box.pack` sets `container_id`, `x_min`, `y_min`, `is_horizontal`
as given, computes `x_delta`/`y_delta` from the intrinsic lengths through
the orientation flag, and sets `packed`; so `{x_delta, y_delta}` is
`{x_length, y_length}` with `is_horizontal` selecting the mapping. -/
theorem pack_spec (b : Box) (container_id x_pos y_pos : Int)
    (is_horizontal : Bool) :
    (b.pack container_id x_pos y_pos is_horizontal).container_id = container_id ∧
    (b.pack container_id x_pos y_pos is_horizontal).x_min = x_pos ∧
    (b.pack container_id x_pos y_pos is_horizontal).y_min = y_pos ∧
    (b.pack container_id x_pos y_pos is_horizontal).is_horizontal = is_horizontal ∧
    (b.pack container_id x_pos y_pos is_horizontal).x_delta =
      (if is_horizontal then b.x_length else b.y_length) ∧
    (b.pack container_id x_pos y_pos is_horizontal).y_delta =
      (if is_horizontal then b.y_length else b.x_length) ∧
    (b.pack container_id x_pos y_pos is_horizontal).packed = true ∧
    (((b.pack container_id x_pos y_pos is_horizontal).x_delta = b.x_length ∧
      (b.pack container_id x_pos y_pos is_horizontal).y_delta = b.y_length) ∨
     ((b.pack container_id x_pos y_pos is_horizontal).x_delta = b.y_length ∧
      (b.pack container_id x_pos y_pos is_horizontal).y_delta = b.x_length)) := by
  cases is_horizontal with
  | false => exact ⟨rfl, rfl, rfl, rfl, rfl, rfl, rfl, Or.inr ⟨rfl, rfl⟩⟩
  | true => exact ⟨rfl, rfl, rfl, rfl, rfl, rfl, rfl, Or.inl ⟨rfl, rfl⟩⟩

/-- C5: `Box.unpack` resets all placement-derived fields to their defaults
and clears `packed`; it is idempotent, and on a reachable already-unpacked
box it is the identity. -/
theorem unpack_spec (b : Box) :
    b.unpack.packed = false ∧ b.unpack.container_id = -1 ∧
    b.unpack.x_min = 0 ∧ b.unpack.x_delta = 0 ∧ b.unpack.y_min = 0 ∧
    b.unpack.y_delta = 0 ∧ b.unpack.is_horizontal = true ∧
    b.unpack.unpack = b.unpack ∧
    (BoxReach b → b.packed = false → b.unpack = b) :=
  ⟨rfl, rfl, rfl, rfl, rfl, rfl, rfl, rfl,
    fun hr hu => unpack_of_unpacked hr hu⟩

/-- C5 witness: `unpack` leaves a freshly constructed (hence unpacked) box
unchanged. -/
theorem unpack_spec_witness :
    BoxReach (mkBox 1 2 3 4) ∧ (mkBox 1 2 3 4).packed = false ∧
      (mkBox 1 2 3 4).unpack = mkBox 1 2 3 4 :=
  ⟨BoxReach.init 1 2 3 4, rfl,
    (unpack_spec (mkBox 1 2 3 4)).2.2.2.2.2.2.2.2 (BoxReach.init 1 2 3 4) rfl⟩

/-- C6: in any box state reachable by construction, `pack` and `unpack`,
`packed = false` implies every placement-derived field is at its reset
default and `container_id = -1`. -/
theorem unpacked_invariant (b : Box) (hr : BoxReach b) (hu : b.packed = false) :
    b.container_id = -1 ∧ b.x_min = 0 ∧ b.x_delta = 0 ∧ b.y_min = 0 ∧
      b.y_delta = 0 ∧ b.is_horizontal = true :=
  boxReach_unpacked_fields hr hu

/-- C6 witness: the invariant at a concrete freshly constructed box. -/
theorem unpacked_invariant_witness :
    (mkBox 0 2 3 4).packed = false ∧
      ((mkBox 0 2 3 4).container_id = -1 ∧ (mkBox 0 2 3 4).x_min = 0 ∧
        (mkBox 0 2 3 4).x_delta = 0 ∧ (mkBox 0 2 3 4).y_min = 0 ∧
        (mkBox 0 2 3 4).y_delta = 0 ∧ (mkBox 0 2 3 4).is_horizontal = true) :=
  ⟨rfl, unpacked_invariant (mkBox 0 2 3 4) (BoxReach.init 0 2 3 4) rfl⟩

/-- C10: `Box.pack` leaves the identity and intrinsic fields (`id`,
`x_length`, `y_length`, `weight`) unchanged. -/
theorem pack_frame (b : Box) (container_id x_pos y_pos : Int)
    (is_horizontal : Bool) :
    (b.pack container_id x_pos y_pos is_horizontal).id = b.id ∧
    (b.pack container_id x_pos y_pos is_horizontal).x_length = b.x_length ∧
    (b.pack container_id x_pos y_pos is_horizontal).y_length = b.y_length ∧
    (b.pack container_id x_pos y_pos is_horizontal).weight = b.weight :=
  ⟨rfl, rfl, rfl, rfl⟩

/-- A concrete already-packed box, used to exercise a second `pack`. -/
def repackSample : Box := (mkBox 7 2 3 4).pack 0 1 1 true

/-- C9 counterexample: `Box.pack` performs no packed-check.  Packing the
already-packed `repackSample` again returns normally and silently records
the new placement over the old one. -/
theorem pack_repack_counterexample :
    repackSample.packed = true ∧
    (repackSample.pack 1 5 6 false).packed = true ∧
    (repackSample.pack 1 5 6 false).container_id = 1 ∧
    (repackSample.pack 1 5 6 false).x_min = 5 ∧
    (repackSample.pack 1 5 6 false).y_min = 6 ∧
    repackSample.pack 1 5 6 false ≠ repackSample := by
  refine ⟨rfl, rfl, rfl, rfl, rfl, ?_⟩
  decide

/-- C9 amended: `Box.pack` never inspects the previous placement state:
packing a box gives the same result as packing its unpacked version, so a
call on an already-packed box silently overwrites the old placement
instead of failing. -/
theorem pack_ignores_previous_placement (b : Box) (container_id x_pos y_pos : Int)
    (is_horizontal : Bool) :
    b.pack container_id x_pos y_pos is_horizontal =
      b.unpack.pack container_id x_pos y_pos is_horizontal := by
  cases b
  rfl

/-- The flat sum over owned boxes equals the sum, over containers, of the
per-container weight sums (the generator expression read two ways). -/
theorem objective_eq_nested_sum (s : SolutionState) :
    s.objective =
      (s.containers.map fun c =>
        ((c.boxes.map fun i => (s.boxes.getD i boxD).weight).sum)).sum := by
  unfold SolutionState.objective
  induction s.containers with
  | nil => rfl
  | cons c cs ih =>
      rw [List.flatMap_cons, List.map_append, List.sum_append, List.map_cons,
        List.sum_cons, ih]

/-- C1: `objective` returns the sum of `weight` over all boxes owned by
all containers, and when the boxes owned by the containers are exactly the
`packed` boxes of the pool (the ownership invariant of the state), this
equals the total weight of every box with `packed = true`.  `objective`
is a pure function of the state. -/
theorem objective_spec (s : SolutionState)
    (hperm : ((s.containers.flatMap fun c => c.boxes).map fun i => s.boxes.getD i boxD).Perm
      (s.boxes.filter fun b => b.packed)) :
    s.objective =
      ((s.containers.flatMap fun c => c.boxes).map fun i =>
        (s.boxes.getD i boxD).weight).sum ∧
    s.objective = ((s.boxes.filter fun b => b.packed).map fun b => b.weight).sum := by
  refine ⟨rfl, ?_⟩
  have h1 : s.objective =
      (((s.containers.flatMap fun c => c.boxes).map fun i => s.boxes.getD i boxD).map
        fun b => b.weight).sum := by
    unfold SolutionState.objective
    rw [List.map_map]
    rfl
  rw [h1, (hperm.map fun b => b.weight).sum_eq]

/-- Concrete state for the objective witness: one `10 × 10` container
owning pool box `0` (a packed `6 × 4` box of weight 5); pool box `1` is
unpacked with weight 3. -/
def objSample : SolutionState :=
  { containers := [{ mkContainer 0 10 10 with boxes := [0] }],
    boxes := [(mkBox 0 6 4 5).pack 0 0 0 true, mkBox 1 4 6 3],
    corner_preferences := [],
    direction_preferences := [] }

/-- C1 witness: the objective of `objSample` is both the owned-box weight
sum and the packed-box weight sum. -/
theorem objective_spec_witness :
    objSample.objective =
      ((objSample.containers.flatMap fun c => c.boxes).map fun i =>
        (objSample.boxes.getD i boxD).weight).sum ∧
    objSample.objective =
      ((objSample.boxes.filter fun b => b.packed).map fun b => b.weight).sum :=
  objective_spec objSample (by decide)

/-- Embeds `Container.unpack`, container-local part: reset the corner collection
to the single origin corner and clear the owned-box collection. -/
def Container.unpack (c : Container) : Container :=
  { c with corners := [⟨0, 0⟩], boxes := [] }

/-- The pool effect of `Container.unpack`: the loop
`for box in self.boxes: box.unpack()` over the owned indices. -/
def unpackAll (pool : List Box) (owned : List Nat) : List Box :=
  owned.foldl (fun p i => p.set i ((p.getD i boxD).unpack)) pool

/-- Embeds `Container.unpack` on the whole state: unpack every owned box in the
pool, then reset the container. -/
def SolutionState.unpackContainer (s : SolutionState) (ci : Nat) : SolutionState :=
  { s with
    boxes := unpackAll s.boxes (s.containers.getD ci contD).boxes,
    containers := s.containers.set ci (s.containers.getD ci contD).unpack }

theorem getD_set_self {α : Type} (l : List α) (i : Nat) (x d : α) (h : i < l.length) :
    (l.set i x).getD i d = x := by
  induction l generalizing i with
  | nil => simp at h
  | cons a t ih =>
      cases i with
      | zero => rfl
      | succ j => exact ih j (by simpa using h)

theorem getD_set_other {α : Type} (l : List α) (i j : Nat) (x d : α) (h : i ≠ j) :
    (l.set i x).getD j d = l.getD j d := by
  induction l generalizing i j with
  | nil => simp [List.set]
  | cons a t ih =>
      cases i with
      | zero =>
          cases j with
          | zero => exact absurd rfl h
          | succ k => rfl
      | succ i' =>
          cases j with
          | zero => rfl
          | succ k => exact ih i' k fun hik => h (by rw [hik])

theorem length_unpackAll (pool : List Box) (owned : List Nat) :
    (unpackAll pool owned).length = pool.length := by
  induction owned generalizing pool with
  | nil => rfl
  | cons i t ih => rw [unpackAll, List.foldl_cons, ← unpackAll, ih, List.length_set]

theorem getD_unpackAll_not_mem (pool : List Box) (owned : List Nat) (j : Nat)
    (h : j ∉ owned) : (unpackAll pool owned).getD j boxD = pool.getD j boxD := by
  induction owned generalizing pool with
  | nil => rfl
  | cons i t ih =>
      rw [unpackAll, List.foldl_cons, ← unpackAll]
      rw [ih _ fun hm => h (List.mem_cons_of_mem i hm)]
      exact getD_set_other _ _ _ _ _ fun hij => h (hij ▸ List.mem_cons_self i t)

theorem getD_of_length_le {α : Type} (l : List α) (i : Nat) (d : α)
    (h : l.length ≤ i) : l.getD i d = d := by
  induction l generalizing i with
  | nil => rfl
  | cons a t ih =>
      cases i with
      | zero => simp at h
      | succ j => exact ih j (Nat.le_of_succ_le_succ h)

theorem getD_unpackAll_mem (pool : List Box) (owned : List Nat) (i : Nat)
    (h : i ∈ owned) : ((unpackAll pool owned).getD i boxD).packed = false := by
  induction owned generalizing pool with
  | nil => simp at h
  | cons k t ih =>
      rw [unpackAll, List.foldl_cons, ← unpackAll]
      by_cases hmem : i ∈ t
      · exact ih _ hmem
      · have hik : i = k := by
          rcases List.mem_cons.mp h with h1 | h2
          · exact h1
          · exact absurd h2 hmem
        subst hik
        rw [getD_unpackAll_not_mem _ _ _ hmem]
        by_cases hlt : i < pool.length
        · rw [getD_set_self _ _ _ _ hlt]
          rfl
        · rw [getD_of_length_le]
          · rfl
          · rw [List.length_set]
            exact Nat.le_of_not_lt hlt

/-- C4: `Container.unpack` on a container of the state unpacks every box
it owned, leaves its owned-box collection empty, and leaves exactly the
single corner `(0, 0)`. -/
theorem container_unpack_spec (s : SolutionState) (ci : Nat)
    (h : ci < s.containers.length) :
    ((s.unpackContainer ci).containers.getD ci contD).boxes = [] ∧
    ((s.unpackContainer ci).containers.getD ci contD).corners = [⟨0, 0⟩] ∧
    ∀ i ∈ (s.containers.getD ci contD).boxes,
      ((s.unpackContainer ci).boxes.getD i boxD).packed = false := by
  have hc : (s.unpackContainer ci).containers.getD ci contD =
      (s.containers.getD ci contD).unpack :=
    getD_set_self s.containers ci ((s.containers.getD ci contD).unpack) contD h
  exact ⟨by rw [hc]; rfl, by rw [hc]; rfl,
    fun i hi => getD_unpackAll_mem s.boxes (s.containers.getD ci contD).boxes i hi⟩

/-- Concrete state for the container-unpack witnesses: one `10 × 10`
container owning pool box `0`, which is packed at the origin. -/
def unpackSample : SolutionState :=
  { containers := [{ mkContainer 0 10 10 with
      boxes := [0], corners := [⟨0, 4⟩, ⟨6, 0⟩] }],
    boxes := [(mkBox 0 6 4 5).pack 0 0 0 true],
    corner_preferences := [],
    direction_preferences := [] }

/-- C4 witness: unpacking the sample container empties it, resets its
corners, and unpacks its owned box. -/
theorem container_unpack_spec_witness :
    0 < unpackSample.containers.length ∧
    ((unpackSample.unpackContainer 0).containers.getD 0 contD).boxes = [] ∧
    ((unpackSample.unpackContainer 0).containers.getD 0 contD).corners = [⟨0, 0⟩] ∧
    ((unpackSample.unpackContainer 0).boxes.getD 0 boxD).packed = false :=
  ⟨by decide, (container_unpack_spec unpackSample 0 (by decide)).1,
    (container_unpack_spec unpackSample 0 (by decide)).2.1,
    (container_unpack_spec unpackSample 0 (by decide)).2.2 0 (by decide)⟩

/-- C7: a freshly constructed container, and a container immediately after
`unpack`, has exactly one corner, at `(0, 0)`. -/
theorem single_origin_corner (id x_length y_length : Int) (s : SolutionState)
    (ci : Nat) (h : ci < s.containers.length) :
    (mkContainer id x_length y_length).corners = [⟨0, 0⟩] ∧
    (mkContainer id x_length y_length).corners.length = 1 ∧
    ((s.unpackContainer ci).containers.getD ci contD).corners = [⟨0, 0⟩] ∧
    ((s.unpackContainer ci).containers.getD ci contD).corners.length = 1 := by
  have hc : (s.unpackContainer ci).containers.getD ci contD =
      (s.containers.getD ci contD).unpack :=
    getD_set_self s.containers ci ((s.containers.getD ci contD).unpack) contD h
  exact ⟨rfl, rfl, by rw [hc]; rfl, by rw [hc]; rfl⟩

/-- C7 witness: the single origin corner at a concrete fresh container and
after unpacking the sample container. -/
theorem single_origin_corner_witness :
    0 < unpackSample.containers.length ∧
    (mkContainer 3 7 9).corners = [⟨0, 0⟩] ∧
    ((unpackSample.unpackContainer 0).containers.getD 0 contD).corners = [⟨0, 0⟩] :=
  ⟨by decide, (single_origin_corner 3 7 9 unpackSample 0 (by decide)).1,
    (single_origin_corner 3 7 9 unpackSample 0 (by decide)).2.2.1⟩

/-- The bounds part of the engine's fit check (spec 4.3): the placed
rectangle of `b` lies within the container's bounds. -/
def fitsIn (c : Container) (b : Box) : Prop :=
  0 ≤ b.x_min ∧ 0 ≤ b.y_min ∧ b.x_min + b.x_delta ≤ c.x_length ∧
    b.y_min + b.y_delta ≤ c.y_length

instance (c : Container) (b : Box) : Decidable (fitsIn c b) := by
  unfold fitsIn
  exact inferInstance

/-- The overlap part of the engine's fit check (spec 4.3): the two placed
rectangles share interior area; touching edges are not overlap. -/
def rectOverlap (a b : Box) : Prop :=
  a.x_min < b.x_min + b.x_delta ∧ b.x_min < a.x_min + a.x_delta ∧
    a.y_min < b.y_min + b.y_delta ∧ b.y_min < a.y_min + a.y_delta

instance (a b : Box) : Decidable (rectOverlap a b) := by
  unfold rectOverlap
  exact inferInstance

theorem rectOverlap_symm {a b : Box} (h : rectOverlap a b) : rectOverlap b a :=
  ⟨h.2.1, h.1, h.2.2.2, h.2.2.1⟩

/-- Modelled from the spec: the corner-ledger insertion rule of spec 4.2
(the placement engine that maintains the ledger is not part of
`framework.py`).  A candidate corner is kept when it lies within the
container's bounds and does not duplicate a present corner. -/
def addCorner (c : Container) (ks : List Corner) (k : Corner) : List Corner :=
  if k.x ≤ c.x_length ∧ k.y ≤ c.y_length then
    (if k ∈ ks then ks else ks ++ [k])
  else ks

/-- Modelled from the spec: the corner-ledger update on a successful
placement (spec 4.2): remove the consumed corner `(cx, cy)`, then insert
the candidate above the placed box and the candidate to its right. -/
def updateCorners (c : Container) (cx cy dx dy : Int) : List Corner :=
  addCorner c
    (addCorner c (c.corners.filter fun k => !(k.x == cx && k.y == cy))
      ⟨cx, cy + dy⟩)
    ⟨cx + dx, cy⟩

/-- Modelled from the spec: the engine's successful-placement action
(spec 4.3 step iv, absent from `framework.py`): `Box.pack`, append the box
to the container's owned-box collection, update the corner ledger. -/
def placeBox (s : SolutionState) (bi ci : Nat) (cx cy : Int) (horiz : Bool) :
    SolutionState :=
  let c := s.containers.getD ci contD
  let b := (s.boxes.getD bi boxD).pack c.id cx cy horiz
  { s with
    boxes := s.boxes.set bi b,
    containers := s.containers.set ci
      { c with
        boxes := c.boxes ++ [bi],
        corners := updateCorners c cx cy b.x_delta b.y_delta } }

/-- States reachable by pack/unpack operations, where every pack call
satisfies the stated precondition (spec 4.1): the box is currently
unpacked and the caller has verified that the placed rectangle fits in the
container and overlaps no box the container owns. -/
inductive Reach : SolutionState → SolutionState → Prop
  | refl (s : SolutionState) : Reach s s
  | place {s0 s : SolutionState} (bi ci : Nat) (cx cy : Int) (horiz : Bool) :
      Reach s0 s →
      bi < s.boxes.length →
      ci < s.containers.length →
      (s.boxes.getD bi boxD).packed = false →
      fitsIn (s.containers.getD ci contD)
        ((s.boxes.getD bi boxD).pack (s.containers.getD ci contD).id cx cy horiz) →
      (∀ j ∈ (s.containers.getD ci contD).boxes,
        ¬ rectOverlap
          ((s.boxes.getD bi boxD).pack (s.containers.getD ci contD).id cx cy horiz)
          (s.boxes.getD j boxD)) →
      Reach s0 (placeBox s bi ci cx cy horiz)
  | unpackC {s0 s : SolutionState} (ci : Nat) :
      Reach s0 s → Reach s0 (s.unpackContainer ci)

/-- The packing invariant: every owned index denotes a valid, packed pool
box whose rectangle fits its container; owned boxes of one container are
pairwise non-overlapping; owned lists are duplicate-free and pairwise
disjoint across containers. -/
def PackInv (s : SolutionState) : Prop :=
  ∀ ci, ci < s.containers.length →
    (∀ i ∈ (s.containers.getD ci contD).boxes,
      i < s.boxes.length ∧ (s.boxes.getD i boxD).packed = true ∧
        fitsIn (s.containers.getD ci contD) (s.boxes.getD i boxD)) ∧
    (∀ i ∈ (s.containers.getD ci contD).boxes,
      ∀ j ∈ (s.containers.getD ci contD).boxes, i ≠ j →
        ¬ rectOverlap (s.boxes.getD i boxD) (s.boxes.getD j boxD)) ∧
    (∀ cj, cj < s.containers.length → cj ≠ ci →
      ∀ i ∈ (s.containers.getD ci contD).boxes,
        i ∉ (s.containers.getD cj contD).boxes) ∧
    (s.containers.getD ci contD).boxes.Nodup

/-- Initial states: no container owns any box yet (fresh containers from
the data loader). -/
def InitOk (s : SolutionState) : Prop :=
  ∀ ci, ci < s.containers.length → (s.containers.getD ci contD).boxes = []

instance (s : SolutionState) : Decidable (InitOk s) := by
  unfold InitOk
  exact Nat.decidableBallLT s.containers.length _

theorem inv_of_initOk {s : SolutionState} (h : InitOk s) : PackInv s := by
  intro ci hci
  rw [h ci hci]
  refine ⟨fun i hi => absurd hi (List.not_mem_nil i),
    fun i hi => absurd hi (List.not_mem_nil i),
    fun cj hcj hne i hi => absurd hi (List.not_mem_nil i),
    List.nodup_nil⟩

/-- An unpacked pool box is owned by no container. -/
theorem not_owned_of_unpacked {s : SolutionState} (hinv : PackInv s) {bi : Nat}
    (hu : (s.boxes.getD bi boxD).packed = false) :
    ∀ ci, ci < s.containers.length → bi ∉ (s.containers.getD ci contD).boxes := by
  intro ci hci hmem
  have hp := ((hinv ci hci).1 bi hmem).2.1
  rw [hp] at hu
  exact Bool.noConfusion hu

theorem set_of_length_le {α : Type} (l : List α) (i : Nat) (x : α)
    (h : l.length ≤ i) : l.set i x = l := by
  induction l generalizing i with
  | nil => rfl
  | cons a t ih =>
      cases i with
      | zero => simp at h
      | succ j => simp [List.set, ih j (Nat.le_of_succ_le_succ h)]

theorem nodup_append_singleton {l : List Nat} {x : Nat} (hl : l.Nodup)
    (hx : x ∉ l) : (l ++ [x]).Nodup := by
  rw [List.nodup_append]
  exact ⟨hl, List.nodup_singleton x,
    fun a ha hb => absurd ((List.mem_singleton.mp hb) ▸ ha) hx⟩

theorem packInv_place {s : SolutionState} (hinv : PackInv s) {bi ci : Nat}
    {cx cy : Int} {horiz : Bool}
    (hbi : bi < s.boxes.length) (hci : ci < s.containers.length)
    (hu : (s.boxes.getD bi boxD).packed = false)
    (hfit : fitsIn (s.containers.getD ci contD)
      ((s.boxes.getD bi boxD).pack (s.containers.getD ci contD).id cx cy horiz))
    (hov : ∀ j ∈ (s.containers.getD ci contD).boxes,
      ¬ rectOverlap
        ((s.boxes.getD bi boxD).pack (s.containers.getD ci contD).id cx cy horiz)
        (s.boxes.getD j boxD)) :
    PackInv (placeBox s bi ci cx cy horiz) := by
  have hbnot : ∀ cj, cj < s.containers.length →
      bi ∉ (s.containers.getD cj contD).boxes :=
    not_owned_of_unpacked hinv hu
  have hC : (placeBox s bi ci cx cy horiz).containers =
      s.containers.set ci
        { s.containers.getD ci contD with
          boxes := (s.containers.getD ci contD).boxes ++ [bi],
          corners := updateCorners (s.containers.getD ci contD) cx cy
            ((s.boxes.getD bi boxD).pack
              (s.containers.getD ci contD).id cx cy horiz).x_delta
            ((s.boxes.getD bi boxD).pack
              (s.containers.getD ci contD).id cx cy horiz).y_delta } := rfl
  have hB : (placeBox s bi ci cx cy horiz).boxes =
      s.boxes.set bi
        ((s.boxes.getD bi boxD).pack (s.containers.getD ci contD).id cx cy horiz) :=
    rfl
  unfold PackInv
  rw [hC, hB]
  intro ci' hci'
  rw [List.length_set] at hci'
  by_cases hcc : ci' = ci
  · subst hcc
    have hget : (s.containers.set ci'
        { s.containers.getD ci' contD with
          boxes := (s.containers.getD ci' contD).boxes ++ [bi],
          corners := updateCorners (s.containers.getD ci' contD) cx cy
            ((s.boxes.getD bi boxD).pack
              (s.containers.getD ci' contD).id cx cy horiz).x_delta
            ((s.boxes.getD bi boxD).pack
              (s.containers.getD ci' contD).id cx cy horiz).y_delta }).getD ci' contD =
        { s.containers.getD ci' contD with
          boxes := (s.containers.getD ci' contD).boxes ++ [bi],
          corners := updateCorners (s.containers.getD ci' contD) cx cy
            ((s.boxes.getD bi boxD).pack
              (s.containers.getD ci' contD).id cx cy horiz).x_delta
            ((s.boxes.getD bi boxD).pack
              (s.containers.getD ci' contD).id cx cy horiz).y_delta } :=
      getD_set_self _ _ _ _ hci'
    rw [hget]
    refine ⟨?_, ?_, ?_, ?_⟩
    · intro i hi
      rcases List.mem_append.mp hi with hiold | hinew
      · have hine : bi ≠ i := fun h => hbnot ci' hci' (h ▸ hiold)
        have hgd : (s.boxes.set bi ((s.boxes.getD bi boxD).pack
            (s.containers.getD ci' contD).id cx cy horiz)).getD i boxD =
            s.boxes.getD i boxD := getD_set_other _ _ _ _ _ hine
        obtain ⟨h1, h2, h3⟩ := (hinv ci' hci').1 i hiold
        rw [List.length_set, hgd]
        exact ⟨h1, h2, h3⟩
      · have hieq : i = bi := List.mem_singleton.mp hinew
        subst hieq
        have hgd : (s.boxes.set i ((s.boxes.getD i boxD).pack
            (s.containers.getD ci' contD).id cx cy horiz)).getD i boxD =
            (s.boxes.getD i boxD).pack
              (s.containers.getD ci' contD).id cx cy horiz :=
          getD_set_self _ _ _ _ hbi
        rw [List.length_set, hgd]
        exact ⟨hbi, rfl, hfit⟩
    · intro i hi j hj hne
      rcases List.mem_append.mp hi with hiold | hinew
      · have hine : bi ≠ i := fun h => hbnot ci' hci' (h ▸ hiold)
        have hgdi : (s.boxes.set bi ((s.boxes.getD bi boxD).pack
            (s.containers.getD ci' contD).id cx cy horiz)).getD i boxD =
            s.boxes.getD i boxD := getD_set_other _ _ _ _ _ hine
        rcases List.mem_append.mp hj with hjold | hjnew
        · have hjne : bi ≠ j := fun h => hbnot ci' hci' (h ▸ hjold)
          have hgdj : (s.boxes.set bi ((s.boxes.getD bi boxD).pack
              (s.containers.getD ci' contD).id cx cy horiz)).getD j boxD =
              s.boxes.getD j boxD := getD_set_other _ _ _ _ _ hjne
          rw [hgdi, hgdj]
          exact (hinv ci' hci').2.1 i hiold j hjold hne
        · have hjeq : j = bi := List.mem_singleton.mp hjnew
          subst hjeq
          have hgdj : (s.boxes.set j ((s.boxes.getD j boxD).pack
              (s.containers.getD ci' contD).id cx cy horiz)).getD j boxD =
              (s.boxes.getD j boxD).pack
                (s.containers.getD ci' contD).id cx cy horiz :=
            getD_set_self _ _ _ _ hbi
          rw [hgdi, hgdj]
          exact fun h => hov i hiold (rectOverlap_symm h)
      · have hieq : i = bi := List.mem_singleton.mp hinew
        subst hieq
        have hgdi : (s.boxes.set i ((s.boxes.getD i boxD).pack
            (s.containers.getD ci' contD).id cx cy horiz)).getD i boxD =
            (s.boxes.getD i boxD).pack
              (s.containers.getD ci' contD).id cx cy horiz :=
          getD_set_self _ _ _ _ hbi
        rcases List.mem_append.mp hj with hjold | hjnew
        · have hjne : i ≠ j := fun h => hbnot ci' hci' (h ▸ hjold)
          have hgdj : (s.boxes.set i ((s.boxes.getD i boxD).pack
              (s.containers.getD ci' contD).id cx cy horiz)).getD j boxD =
              s.boxes.getD j boxD := getD_set_other _ _ _ _ _ hjne
          rw [hgdi, hgdj]
          exact hov j hjold
        · exact absurd ((List.mem_singleton.mp hjnew).symm.trans rfl) hne
    · intro cj hcj hne i hi
      rw [List.length_set] at hcj
      have hgdc : (s.containers.set ci'
          { s.containers.getD ci' contD with
            boxes := (s.containers.getD ci' contD).boxes ++ [bi],
            corners := updateCorners (s.containers.getD ci' contD) cx cy
              ((s.boxes.getD bi boxD).pack
                (s.containers.getD ci' contD).id cx cy horiz).x_delta
              ((s.boxes.getD bi boxD).pack
                (s.containers.getD ci' contD).id cx cy horiz).y_delta }).getD cj contD =
          s.containers.getD cj contD :=
        getD_set_other _ _ _ _ _ fun h => hne h.symm
      rw [hgdc]
      rcases List.mem_append.mp hi with hiold | hinew
      · exact (hinv ci' hci').2.2.1 cj hcj hne i hiold
      · exact (List.mem_singleton.mp hinew) ▸ hbnot cj hcj
    · exact nodup_append_singleton (hinv ci' hci').2.2.2 (hbnot ci' hci')
  · have hgdc : (s.containers.set ci
        { s.containers.getD ci contD with
          boxes := (s.containers.getD ci contD).boxes ++ [bi],
          corners := updateCorners (s.containers.getD ci contD) cx cy
            ((s.boxes.getD bi boxD).pack
              (s.containers.getD ci contD).id cx cy horiz).x_delta
            ((s.boxes.getD bi boxD).pack
              (s.containers.getD ci contD).id cx cy horiz).y_delta }).getD ci' contD =
        s.containers.getD ci' contD :=
      getD_set_other _ _ _ _ _ fun h => hcc h.symm
    rw [hgdc]
    refine ⟨?_, ?_, ?_, (hinv ci' hci').2.2.2⟩
    · intro i hi
      have hine : bi ≠ i := fun h => hbnot ci' hci' (h ▸ hi)
      have hgd : (s.boxes.set bi ((s.boxes.getD bi boxD).pack
          (s.containers.getD ci contD).id cx cy horiz)).getD i boxD =
          s.boxes.getD i boxD := getD_set_other _ _ _ _ _ hine
      obtain ⟨h1, h2, h3⟩ := (hinv ci' hci').1 i hi
      rw [List.length_set, hgd]
      exact ⟨h1, h2, h3⟩
    · intro i hi j hj hne
      have hine : bi ≠ i := fun h => hbnot ci' hci' (h ▸ hi)
      have hjne : bi ≠ j := fun h => hbnot ci' hci' (h ▸ hj)
      have hgdi : (s.boxes.set bi ((s.boxes.getD bi boxD).pack
          (s.containers.getD ci contD).id cx cy horiz)).getD i boxD =
          s.boxes.getD i boxD := getD_set_other _ _ _ _ _ hine
      have hgdj : (s.boxes.set bi ((s.boxes.getD bi boxD).pack
          (s.containers.getD ci contD).id cx cy horiz)).getD j boxD =
          s.boxes.getD j boxD := getD_set_other _ _ _ _ _ hjne
      rw [hgdi, hgdj]
      exact (hinv ci' hci').2.1 i hi j hj hne
    · intro cj hcj hne i hi
      rw [List.length_set] at hcj
      by_cases hcj' : cj = ci
      · subst hcj'
        have hgdc2 : (s.containers.set cj
            { s.containers.getD cj contD with
              boxes := (s.containers.getD cj contD).boxes ++ [bi],
              corners := updateCorners (s.containers.getD cj contD) cx cy
                ((s.boxes.getD bi boxD).pack
                  (s.containers.getD cj contD).id cx cy horiz).x_delta
                ((s.boxes.getD bi boxD).pack
                  (s.containers.getD cj contD).id cx cy horiz).y_delta }).getD cj contD =
            { s.containers.getD cj contD with
              boxes := (s.containers.getD cj contD).boxes ++ [bi],
              corners := updateCorners (s.containers.getD cj contD) cx cy
                ((s.boxes.getD bi boxD).pack
                  (s.containers.getD cj contD).id cx cy horiz).x_delta
                ((s.boxes.getD bi boxD).pack
                  (s.containers.getD cj contD).id cx cy horiz).y_delta } :=
          getD_set_self _ _ _ _ hcj
        rw [hgdc2]
        intro hmem
        rcases List.mem_append.mp hmem with hmo | hmn
        · exact (hinv ci' hci').2.2.1 cj hcj hne i hi hmo
        · have : i = bi := List.mem_singleton.mp hmn
          subst this
          exact hbnot ci' hci' hi
      · have hgdc2 : (s.containers.set ci
            { s.containers.getD ci contD with
              boxes := (s.containers.getD ci contD).boxes ++ [bi],
              corners := updateCorners (s.containers.getD ci contD) cx cy
                ((s.boxes.getD bi boxD).pack
                  (s.containers.getD ci contD).id cx cy horiz).x_delta
                ((s.boxes.getD bi boxD).pack
                  (s.containers.getD ci contD).id cx cy horiz).y_delta }).getD cj contD =
            s.containers.getD cj contD :=
          getD_set_other _ _ _ _ _ fun h => hcj' h.symm
        rw [hgdc2]
        exact (hinv ci' hci').2.2.1 cj hcj hne i hi

theorem packInv_unpackC {s : SolutionState} (hinv : PackInv s) (ci : Nat) :
    PackInv (s.unpackContainer ci) := by
  by_cases hci : ci < s.containers.length
  · intro ci' hci'
    have hlen : (s.unpackContainer ci).containers.length = s.containers.length := by
      unfold SolutionState.unpackContainer
      exact List.length_set s.containers ci _
    rw [hlen] at hci'
    have hlenb : (s.unpackContainer ci).boxes.length = s.boxes.length :=
      length_unpackAll s.boxes (s.containers.getD ci contD).boxes
    by_cases hcc : ci' = ci
    · subst hcc
      have hget : (s.unpackContainer ci').containers.getD ci' contD =
          (s.containers.getD ci' contD).unpack :=
        getD_set_self s.containers ci' ((s.containers.getD ci' contD).unpack)
          contD hci'
      rw [hget]
      exact ⟨fun i hi => absurd hi (List.not_mem_nil i),
        fun i hi => absurd hi (List.not_mem_nil i),
        fun cj hcj hne i hi => absurd hi (List.not_mem_nil i),
        List.nodup_nil⟩
    · have hget : (s.unpackContainer ci).containers.getD ci' contD =
          s.containers.getD ci' contD :=
        getD_set_other s.containers ci ci'
          ((s.containers.getD ci contD).unpack) contD fun h => hcc h.symm
      rw [hget]
      have hdisj : ∀ i ∈ (s.containers.getD ci' contD).boxes,
          i ∉ (s.containers.getD ci contD).boxes :=
        (hinv ci' hci').2.2.1 ci hci fun h => hcc h.symm
      have hgd : ∀ i ∈ (s.containers.getD ci' contD).boxes,
          (s.unpackContainer ci).boxes.getD i boxD = s.boxes.getD i boxD :=
        fun i hi => getD_unpackAll_not_mem s.boxes
          (s.containers.getD ci contD).boxes i (hdisj i hi)
      refine ⟨?_, ?_, ?_, (hinv ci' hci').2.2.2⟩
      · intro i hi
        obtain ⟨h1, h2, h3⟩ := (hinv ci' hci').1 i hi
        rw [hlenb, hgd i hi]
        exact ⟨h1, h2, h3⟩
      · intro i hi j hj hne
        rw [hgd i hi, hgd j hj]
        exact (hinv ci' hci').2.1 i hi j hj hne
      · intro cj hcj hne i hi
        rw [hlen] at hcj
        by_cases hcj' : cj = ci
        · subst hcj'
          have hget2 : (s.unpackContainer cj).containers.getD cj contD =
              (s.containers.getD cj contD).unpack :=
            getD_set_self s.containers cj ((s.containers.getD cj contD).unpack)
              contD hcj
          rw [hget2]
          exact List.not_mem_nil i
        · have hget2 : (s.unpackContainer ci).containers.getD cj contD =
              s.containers.getD cj contD :=
            getD_set_other s.containers ci cj
              ((s.containers.getD ci contD).unpack) contD fun h => hcj' h.symm
          rw [hget2]
          exact (hinv ci' hci').2.2.1 cj hcj hne i hi
  · have h1 : s.containers.getD ci contD = contD :=
      getD_of_length_le s.containers ci contD (Nat.le_of_not_lt hci)
    have hid : s.unpackContainer ci = s := by
      unfold SolutionState.unpackContainer
      rw [h1, set_of_length_le s.containers ci contD.unpack (Nat.le_of_not_lt hci)]
      rfl
    rw [hid]
    exact hinv

theorem packInv_of_reach {s0 s : SolutionState} (h0 : InitOk s0)
    (hr : Reach s0 s) : PackInv s := by
  induction hr with
  | refl => exact inv_of_initOk h0
  | place bi ci cx cy horiz hr hbi hci hu hfit hov ih =>
      exact packInv_place ih hbi hci hu hfit hov
  | unpackC ci hr ih => exact packInv_unpackC ih ci

/-- C2: after any sequence of pack/unpack operations from an initial state
(every pack call satisfying the stated precondition that the caller
verified fit and non-overlap), for every container the packed boxes it
owns are pairwise non-overlapping, and each packed box's occupied
rectangle lies within its owning container's bounds. -/
theorem packing_invariant (s0 s : SolutionState) (h0 : InitOk s0)
    (hr : Reach s0 s) (ci : Nat) (hci : ci < s.containers.length) :
    (∀ i ∈ (s.containers.getD ci contD).boxes,
      ∀ j ∈ (s.containers.getD ci contD).boxes, i ≠ j →
        (s.boxes.getD i boxD).packed = true →
        (s.boxes.getD j boxD).packed = true →
        ¬ rectOverlap (s.boxes.getD i boxD) (s.boxes.getD j boxD)) ∧
    (∀ i ∈ (s.containers.getD ci contD).boxes,
      (s.boxes.getD i boxD).packed = true →
        fitsIn (s.containers.getD ci contD) (s.boxes.getD i boxD)) := by
  have hinv := packInv_of_reach h0 hr
  exact ⟨fun i hi j hj hne hpi hpj => (hinv ci hci).2.1 i hi j hj hne,
    fun i hi hpi => ((hinv ci hci).1 i hi).2.2⟩

/-- Concrete initial state for the packing-invariant witness: one
`10 × 10` container and one unpacked `6 × 4` box. -/
def reachSample0 : SolutionState :=
  { containers := [mkContainer 0 10 10],
    boxes := [mkBox 0 6 4 5],
    corner_preferences := [0],
    direction_preferences := [true] }

/-- The state after one placement: box `0` packed at the origin,
horizontally, in container `0`. -/
def reachSample1 : SolutionState := placeBox reachSample0 0 0 0 0 true

/-- C2 witness: the invariant after a concrete reachable placement. -/
theorem packing_invariant_witness :
    InitOk reachSample0 ∧ 0 < reachSample1.containers.length ∧
      fitsIn (reachSample1.containers.getD 0 contD)
        (reachSample1.boxes.getD 0 boxD) :=
  ⟨by decide, by decide,
    (packing_invariant reachSample0 reachSample1 (by decide)
        (Reach.place 0 0 0 0 true (Reach.refl reachSample0) (by decide)
          (by decide) (by decide) (by decide) (by decide))
        0 (by decide)).2 0 (by decide) (by decide)⟩

/-- The loader state of `Data.read_data`: declared counts, the entity
lists built so far, and the running maximum box weight. -/
structure DataR where
  n_containers : Int
  containers : List Container
  n_boxes : Int
  boxes : List Box
  max_weight : Int
deriving DecidableEq, Repr

/-- Embeds `Data.__init__` before the read loop: zero counts, empty lists. -/
def initData : DataR := ⟨0, [], 0, [], 0⟩

/-- One iteration of the `read_data` loop on the line at `index`.  A line
is its list of integer fields (`line.split()` with every field parsed);
`int(line)` on a count line succeeds exactly when the line is one field.
A failing `int()` or a failing `assert` raises, `else` raises
`ValueError("Too many lines")`; all three abort loading. -/
def readLine (st : DataR) (index : Nat) (line : List Int) : Except String DataR :=
  if index = 0 then
    match line with
    | [n] => .ok { st with n_containers := n }
    | _ => .error ("invalid literal for int on line " ++ toString index)
  else if 1 ≤ (index : Int) ∧ (index : Int) ≤ st.n_containers then
    match line with
    | [a, b] => .ok { st with
        containers := st.containers ++ [mkContainer ((index : Int) - 1) a b] }
    | _ => .error ("Line " ++ toString index ++ " error")
  else if (index : Int) = st.n_containers + 1 then
    match line with
    | [m] => .ok { st with n_boxes := m }
    | _ => .error ("invalid literal for int on line " ++ toString index)
  else if st.n_containers + 1 < (index : Int) ∧
      (index : Int) ≤ st.n_containers + 1 + st.n_boxes then
    match line with
    | [a, b, w] => .ok { st with
        boxes := st.boxes ++ [mkBox ((index : Int) - st.n_containers - 2) a b w],
        max_weight := if st.max_weight ≤ w then w else st.max_weight }
    | _ => .error ("Line " ++ toString index ++ " error")
  else .error "Too many lines"

/-- The enumerated loop of `read_data`: the first error aborts. -/
def readLines (st : DataR) (index : Nat) : List (List Int) → Except String DataR
  | [] => .ok st
  | l :: ls =>
    match readLine st index l with
    | .ok st' => readLines st' (index + 1) ls
    | .error e => .error e

/-- Embeds `Data.read_data`: run the loop over all lines of the file. -/
def read_data (lines : List (List Int)) : Except String DataR :=
  readLines initData 0 lines

/-- C8 amended: the loader stops with a descriptive error on a malformed
count line, on a wrong field count in the container or box region, and on
any line past the declared regions ("Too many lines"); and an error on a
line aborts the processing of the remaining lines. -/
theorem read_data_error_cases (st : DataR) (index : Nat) (line : List Int) :
    (index = 0 → line.length ≠ 1 →
      readLine st index line =
        .error ("invalid literal for int on line " ++ toString index)) ∧
    (1 ≤ (index : Int) → (index : Int) ≤ st.n_containers → line.length ≠ 2 →
      readLine st index line = .error ("Line " ++ toString index ++ " error")) ∧
    ((index : Int) = st.n_containers + 1 → index ≠ 0 → line.length ≠ 1 →
      readLine st index line =
        .error ("invalid literal for int on line " ++ toString index)) ∧
    (index ≠ 0 → st.n_containers + 1 < (index : Int) →
      (index : Int) ≤ st.n_containers + 1 + st.n_boxes → line.length ≠ 3 →
      readLine st index line = .error ("Line " ++ toString index ++ " error")) ∧
    (index ≠ 0 → ¬(1 ≤ (index : Int) ∧ (index : Int) ≤ st.n_containers) →
      (index : Int) ≠ st.n_containers + 1 →
      ¬(st.n_containers + 1 < (index : Int) ∧
        (index : Int) ≤ st.n_containers + 1 + st.n_boxes) →
      readLine st index line = .error "Too many lines") ∧
    (∀ e ls, readLine st index line = .error e →
      readLines st index (line :: ls) = .error e) := by
  refine ⟨?_, ?_, ?_, ?_, ?_, ?_⟩
  · intro h0 hlen
    subst h0
    rcases line with _ | ⟨a, _ | ⟨b, t⟩⟩
    · rfl
    · exact absurd rfl hlen
    · rfl
  · intro h1 h2 hlen
    have h0 : ¬(index = 0) := by omega
    unfold readLine
    rw [if_neg h0, if_pos ⟨h1, h2⟩]
    rcases line with _ | ⟨a, _ | ⟨b, _ | ⟨c, t⟩⟩⟩
    · rfl
    · rfl
    · exact absurd rfl hlen
    · rfl
  · intro heq h0 hlen
    have hnot2 : ¬(1 ≤ (index : Int) ∧ (index : Int) ≤ st.n_containers) := by
      omega
    unfold readLine
    rw [if_neg h0, if_neg hnot2, if_pos heq]
    rcases line with _ | ⟨a, _ | ⟨b, t⟩⟩
    · rfl
    · exact absurd rfl hlen
    · rfl
  · intro h0 hlt hle hlen
    have hnot2 : ¬(1 ≤ (index : Int) ∧ (index : Int) ≤ st.n_containers) := by
      omega
    have hnot3 : ¬((index : Int) = st.n_containers + 1) := by omega
    unfold readLine
    rw [if_neg h0, if_neg hnot2, if_neg hnot3, if_pos ⟨hlt, hle⟩]
    rcases line with _ | ⟨a, _ | ⟨b, _ | ⟨c, _ | ⟨d, t⟩⟩⟩⟩
    · rfl
    · rfl
    · rfl
    · exact absurd rfl hlen
    · rfl
  · intro h0 hnot2 hnot3 hnot4
    unfold readLine
    rw [if_neg h0, if_neg hnot2, if_neg hnot3, if_neg hnot4]
  · intro e ls h
    have hstep : readLines st index (line :: ls) =
        match readLine st index line with
        | .ok st' => readLines st' (index + 1) ls
        | .error e2 => .error e2 := rfl
    rw [hstep, h]

/-- C8 counterexample: a file declaring 2 containers but providing only
one container line (and nothing else) loads successfully — `read_data`
returns a truncated instance with one container instead of stopping with
an error, so an undercount of lines is not a detected format error. -/
theorem read_data_truncation_counterexample :
    read_data [[2], [3, 3]] = .ok ⟨2, [mkContainer 0 3 3], 0, [], 0⟩ ∧
    (read_data [[2], [3, 3]]).isOk = true ∧
    ([mkContainer 0 3 3].length : Int) < 2 := by
  refine ⟨rfl, rfl, by decide⟩

/-- C8 witness: a concrete wrong-field-count container line produces the
descriptive assertion error. -/
theorem read_data_error_cases_witness :
    (1 : Int) ≤ ((1 : Nat) : Int) ∧
    ((1 : Nat) : Int) ≤ (DataR.mk 2 [] 0 [] 0).n_containers ∧
    ([(5 : Int)] : List Int).length ≠ 2 ∧
    readLine ⟨2, [], 0, [], 0⟩ 1 [5] =
      .error ("Line " ++ toString (1 : Nat) ++ " error") :=
  ⟨by decide, by decide, by decide,
    (read_data_error_cases ⟨2, [], 0, [], 0⟩ 1 [5]).2.1
      (by decide) (by decide) (by decide)⟩
